import Mathlib

/-!
Verification of the `wuyax/message-bridge` repository.

Two components are modelled:

* The cooperative priority-aware task scheduler (`packages/task-scheduler`).
  Its implementation file is not part of the source snapshot (only its test
  suite `TaskScheduler.spec.ts` is), so the scheduler operations below are
  modelled from the specification (`spec.md`), faithful to its words; each
  such definition carries a doc comment starting with `Modelled from the
  spec:`.

* The message drivers (`BroadcastDriver`, `PostMessageDriver`), whose source
  is present; their definitions below are translated directly from the
  TypeScript source.
-/

namespace Sched

/-- Modelled from the spec: task priority, `LOW < NORMAL < HIGH` (§3). -/
inductive TaskPriority where
  | LOW
  | NORMAL
  | HIGH
  deriving DecidableEq, Repr

/-- Modelled from the spec: the total order on priorities, as a numeric rank. -/
def prioRank : TaskPriority → Nat
  | .LOW => 0
  | .NORMAL => 1
  | .HIGH => 2

/-- Modelled from the spec: task status (§3); `READY` is represented
implicitly as "pending and in the ready queue", as the spec allows. -/
inductive TaskStatus where
  | PENDING
  | RUNNING
  | COMPLETED
  | FAILED
  | CANCELLED
  deriving DecidableEq, Repr

/-- Modelled from the spec: terminal statuses are `COMPLETED`, `FAILED`,
`CANCELLED` (§3). -/
def isTerminal : TaskStatus → Bool
  | .COMPLETED => true
  | .FAILED => true
  | .CANCELLED => true
  | _ => false

/-- Modelled from the spec: retry strategies (§3, §4.7). -/
inductive TaskRetryStrategy where
  | IMMEDIATE
  | FIXED
  | EXPONENTIAL
  deriving DecidableEq, Repr

/-- Modelled from the spec: the retry delay before retry attempt number
`attempts` (§4.7): `IMMEDIATE`: 0; `FIXED`: `baseDelay`; `EXPONENTIAL`:
`baseDelay × 2^(attempts−1)`. -/
def retryDelay (strategy : TaskRetryStrategy) (baseDelay : Nat) (attempts : Nat) : Nat :=
  match strategy with
  | .IMMEDIATE => 0
  | .FIXED => baseDelay
  | .EXPONENTIAL => baseDelay * 2 ^ (attempts - 1)

/-- Modelled from the spec: the outcome of one attempt of a task (§4.7):
an optional error, whether the abort signal was aborted, and whether the
attempt resolved. -/
structure AttemptResult where
  error : Option String
  aborted : Bool
  ok : Bool
  deriving DecidableEq, Repr

/-- Modelled from the spec: one attempt of an executor that settles after
`execDuration` ms (failing iff `execFails`), under an optional `timeout` of
`t` ms (§4.7 Timeout): if the attempt does not settle within `t` ms the
timer fires, the abort signal is aborted, and the attempt terminates with
error `"Task timeout"`; otherwise the executor's own settlement decides. -/
def runAttempt (execDuration : Nat) (execFails : Bool) (timeout : Option Nat) : AttemptResult :=
  match timeout with
  | some t =>
    if t < execDuration then
      { error := some "Task timeout", aborted := true, ok := false }
    else if execFails then
      { error := some "executor error", aborted := false, ok := false }
    else
      { error := none, aborted := false, ok := true }
  | none =>
    if execFails then
      { error := some "executor error", aborted := false, ok := false }
    else
      { error := none, aborted := false, ok := true }

/-- Modelled from the spec: lifecycle events (§4.10). -/
inductive SchedEvent where
  | TASK_STARTED (attempt : Nat)
  | TASK_COMPLETED
  | TASK_RETRY (attempt : Nat)
  | TASK_FAILED (error : Option String)
  | TASK_CANCELLED (id : String)
  deriving DecidableEq, Repr

/-- Modelled from the spec: the per-task attempt loop (§4.7): attempt,
and on failure retry while attempts remain (`allowed` counts the remaining
allowed attempts, starting at `1 + retryCount`); `att i` is the outcome of
attempt number `i` (0-based). Returns the terminal status, the terminal
error, and the emitted events. -/
def runTaskLoop (att : Nat → AttemptResult) (i : Nat) : Nat → TaskStatus × Option String × List SchedEvent
  | 0 => (.FAILED, none, [])
  | Nat.succ n =>
    let r := att i
    if r.ok then (.COMPLETED, none, [.TASK_STARTED i, .TASK_COMPLETED])
    else if n = 0 then (.FAILED, r.error, [.TASK_STARTED i, .TASK_FAILED r.error])
    else
      let rest := runTaskLoop att (i + 1) n
      (rest.1, rest.2.1, .TASK_STARTED i :: .TASK_RETRY (i + 1) :: rest.2.2)

/-- Counts the `TASK_STARTED` events in an event list (one per attempt). -/
def startedCount (evs : List SchedEvent) : Nat :=
  (evs.filter (fun e => match e with | .TASK_STARTED _ => true | _ => false)).length

/-- An executor that fails on attempts 0 and 1 and succeeds from attempt 2 on
(the exponential-backoff test scenario: fails twice, then succeeds). -/
def failTwiceExec : Nat → AttemptResult :=
  fun i =>
    if i < 2 then { error := some "fail", aborted := false, ok := false }
    else { error := none, aborted := false, ok := true }

/-- Modelled from the spec: the task record (§3). `priority` is the
immutable original priority; `effectivePriority` may only be raised by
inheritance; `enqueueSequence` is the monotonic insertion counter that
breaks priority ties; `aborted` is the state of the task's cooperative
abort signal; `finishedAt` is the terminal timestamp used by retention. -/
structure Task where
  id : String
  taskType : String
  priority : TaskPriority
  effectivePriority : TaskPriority
  dependencies : List String
  status : TaskStatus
  enqueueSequence : Nat
  retryCount : Nat
  retryStrategy : TaskRetryStrategy
  timeout : Option Nat
  interruptible : Bool
  aborted : Bool
  error : Option String
  finishedAt : Option Nat
  deriving DecidableEq, Repr

/-- Modelled from the spec: the scheduler's mutable state (§2, §6): the
task registry (in insertion order), the monotonic sequence counter, the
set of task types with a registered executor, and the configuration used
by the claims (`queueSizeLimit`, `retentionPeriod`). -/
structure Scheduler where
  tasks : List Task
  seqCounter : Nat
  executors : List String
  queueSizeLimit : Option Nat
  retentionPeriod : Nat
  deriving DecidableEq, Repr

/-- Registry lookup by id (first match). -/
def getTask : List Task → String → Option Task
  | [], _ => none
  | t :: ts, i => if t.id == i then some t else getTask ts i

/-- The effective priority currently recorded for id `i`, if tracked. -/
def effOf (ts : List Task) (i : String) : Option TaskPriority :=
  (getTask ts i).map (fun t => t.effectivePriority)

/-- Raises the effective priority of a task to `p` when its id is `i`. -/
def raiseUpd (i : String) (p : TaskPriority) (t : Task) : Task :=
  if t.id == i then { t with effectivePriority := p } else t

/-- Raises the effective priority of the task with id `i` to `p`. -/
def updEff (ts : List Task) (i : String) (p : TaskPriority) : List Task :=
  ts.map (raiseUpd i p)

/-- Modelled from the spec: the priority-inheritance engine (§4.3): when a
task with effective priority `p` is inserted, for each dependency id `d`
with a non-terminal task of effective priority `< p`, set its effective
priority to `p` and recurse into its dependencies (a bounded DFS over the
DAG, the spec's own description). `fuel` realizes the bound; the
propagation lemmas show that the fuel passed by `addTask` is never
exhausted, so the DFS always runs to completion there. -/
def propagatePriority (p : TaskPriority) : Nat → List Task → List String → List Task
  | 0, ts, _ => ts
  | Nat.succ fuel, ts, deps =>
    match deps with
    | [] => ts
    | d :: ds =>
      match getTask ts d with
      | none => propagatePriority p fuel ts ds
      | some t =>
        if isTerminal t.status then propagatePriority p fuel ts ds
        else if prioRank t.effectivePriority < prioRank p then
          propagatePriority p fuel
            (propagatePriority p fuel (updEff ts d p) t.dependencies) ds
        else propagatePriority p fuel ts ds

/-- A sufficient fuel bound for `propagatePriority`: the initial dependency
list length plus, for every tracked task, one plus its dependency count
(the spec's `O(V+E)` bound, §4.3). -/
def depWeight : List Task → Nat
  | [] => 0
  | t :: ts => 1 + t.dependencies.length + depWeight ts

/-- The fuel `addTask` hands to the propagation DFS. -/
def phiBound (ts : List Task) (deps : List String) : Nat :=
  deps.length + depWeight ts

/-- Modelled from the spec: the task descriptor accepted by `addTask`
(§4.1, §6); the claims use client-supplied ids. -/
structure TaskDescriptor where
  id : String
  taskType : String
  priority : TaskPriority
  dependencies : List String
  retryCount : Nat
  retryStrategy : TaskRetryStrategy
  timeout : Option Nat
  interruptible : Bool
  deriving DecidableEq, Repr

/-- Modelled from the spec: the validation error kinds of `addTask` (§7).
A cycle cannot arise at insertion in this model: every dependency must
already be tracked and the inserted id must be fresh, so the inserted task
cannot be reachable from its own dependencies. -/
inductive AddTaskError where
  | queueFull
  | duplicateId
  | noExecutor
  | unknownDependency
  deriving DecidableEq, Repr

/-- Modelled from the spec: the error messages surfaced by `addTask`,
matching the regexes asserted by the test suite. -/
def errMessage : AddTaskError → String
  | .queueFull => "Queue size limit reached"
  | .duplicateId => "Task id already exists"
  | .noExecutor => "No executor registered for task type"
  | .unknownDependency => "Unknown dependency"

/-- Queue-full condition: `totalTasks ≥ queueSizeLimit`, if configured. -/
def queueFullB (s : Scheduler) : Bool :=
  match s.queueSizeLimit with
  | some limit => decide (limit ≤ s.tasks.length)
  | none => false

/-- Modelled from the spec: the task record created by `addTask` (§4.1):
status `PENDING`, effective priority equal to the original priority, and
the scheduler's current sequence counter as `enqueueSequence`. -/
def newTaskOf (s : Scheduler) (d : TaskDescriptor) : Task :=
  { id := d.id, taskType := d.taskType, priority := d.priority,
    effectivePriority := d.priority, dependencies := d.dependencies,
    status := .PENDING, enqueueSequence := s.seqCounter,
    retryCount := d.retryCount, retryStrategy := d.retryStrategy,
    timeout := d.timeout, interruptible := d.interruptible,
    aborted := false, error := none, finishedAt := none }

/-- Modelled from the spec: `addTask` (§4.1): validate (queue full,
duplicate id, no executor, unknown dependency — in the spec's order),
then record the task as `PENDING` with `effectivePriority := priority` and
the next sequence number, and run priority propagation from its
dependencies. On a validation error the state is returned unchanged
(the spec: "nothing else is mutated"). -/
def addTask (s : Scheduler) (d : TaskDescriptor) : Scheduler × Except AddTaskError String :=
  if queueFullB s then (s, .error .queueFull)
  else if (getTask s.tasks d.id).isSome then (s, .error .duplicateId)
  else if !(s.executors.contains d.taskType) then (s, .error .noExecutor)
  else if !(d.dependencies.all (fun c => (getTask s.tasks c).isSome)) then
    (s, .error .unknownDependency)
  else
    ({ s with
        tasks := propagatePriority d.priority
          (phiBound (s.tasks ++ [newTaskOf s d]) d.dependencies)
          (s.tasks ++ [newTaskOf s d]) d.dependencies,
        seqCounter := s.seqCounter + 1 }, .ok d.id)

/-- Modelled from the spec: readiness (§3 invariant): a task is ready iff
`status = PENDING` and every dependency has `status = COMPLETED`. -/
def isReady (ts : List Task) (t : Task) : Bool :=
  t.status == .PENDING &&
    t.dependencies.all (fun d =>
      match getTask ts d with
      | some u => u.status == .COMPLETED
      | none => false)

/-- The ready queue: pending tasks whose dependencies are all completed, in
registry (= enqueue-sequence) order. -/
def readyTasks (ts : List Task) : List Task :=
  ts.filter (isReady ts)

/-- Picks the better of `best` and the remaining candidates: a strictly
higher effective priority wins; otherwise the earlier candidate is kept
(FIFO tiebreak, since the ready queue is in enqueue order). -/
def pickBest : Task → List Task → Task
  | best, [] => best
  | best, t :: ts =>
    if prioRank best.effectivePriority < prioRank t.effectivePriority then pickBest t ts
    else pickBest best ts

/-- Modelled from the spec: the dispatch choice (§4.4, §5): among the ready
tasks, the one with the highest effective priority, ties broken by the
earliest enqueue sequence. -/
def pickNext (ts : List Task) : Option Task :=
  match readyTasks ts with
  | [] => none
  | t :: rest => some (pickBest t rest)

/-- Marks the task with id `i` as `COMPLETED`. -/
def markCompleted (ts : List Task) (i : String) : List Task :=
  ts.map (fun t => if t.id == i then { t with status := .COMPLETED } else t)

/-- Modelled from the spec: the serial execution trace (§4.5 with
`maxConcurrentTasks = 1` and executors that settle before the next
dispatch): repeatedly begin the top-priority ready task and run it to
completion, recording the order in which tasks begin. -/
def runSerial : Nat → List Task → List String
  | 0, _ => []
  | Nat.succ n, ts =>
    match pickNext ts with
    | none => []
    | some t => t.id :: runSerial n (markCompleted ts t.id)

/-- Modelled from the spec: whether `cancelTask` affects the task (§4.7
Cancel): pending tasks are cancelled unconditionally; otherwise only
interruptible, non-terminal tasks are cancelled (non-interruptible running
tasks ignore cancel; terminal statuses are sticky). -/
def canCancel (t : Task) : Bool :=
  t.status == .PENDING || (t.interruptible && !isTerminal t.status)

/-- Modelled from the spec: `cancelTask(id)` (§4.7 Cancel): on an
affectable task, abort the signal, set `status := CANCELLED` and emit
`TASK_CANCELLED`; otherwise do nothing. Returns the new registry, whether
the cancel took effect, and the emitted events. -/
def cancelUpd (i : String) (u : Task) : Task :=
  if u.id == i then { u with status := .CANCELLED, aborted := true } else u

def cancelTask (ts : List Task) (i : String) : List Task × Bool × List SchedEvent :=
  match getTask ts i with
  | none => (ts, false, [])
  | some t =>
    if canCancel t then (ts.map (cancelUpd i), true, [.TASK_CANCELLED i])
    else (ts, false, [])

/-- Modelled from the spec: `getTaskStatus(id)` returns the status, or the
"unknown" sentinel (`none`, the TypeScript `null`) for absent ids (§4.9). -/
def getTaskStatus (s : Scheduler) (i : String) : Option TaskStatus :=
  (getTask s.tasks i).map (fun t => t.status)

/-- Modelled from the spec: whether the retention sweeper keeps a task
(§4.9): terminal tasks with `now − finishedAt > retentionPeriod` are
removed, everything else is kept. -/
def keepTask (retentionPeriod now : Nat) (t : Task) : Bool :=
  !(isTerminal t.status &&
    (match t.finishedAt with
     | some f => decide (retentionPeriod < now - f)
     | none => false))

/-- Modelled from the spec: one retention sweep at time `now` (§4.9). -/
def sweep (now : Nat) (s : Scheduler) : Scheduler :=
  { s with tasks := s.tasks.filter (keepTask s.retentionPeriod now) }

/-- Modelled from the spec: `clear()` removes all tasks regardless of
status (§4.9). -/
def clear (s : Scheduler) : Scheduler :=
  { s with tasks := [] }

/-- A fresh scheduler with the given queue size limit and retention period. -/
def mkScheduler (queueSizeLimit : Option Nat) (retentionPeriod : Nat) : Scheduler :=
  { tasks := [], seqCounter := 0, executors := [], queueSizeLimit := queueSizeLimit,
    retentionPeriod := retentionPeriod }

/-- Modelled from the spec: `registerExecutor(type, fn)` — the model keeps
only the set of types that have an executor. -/
def registerExecutor (s : Scheduler) (ty : String) : Scheduler :=
  { s with executors := ty :: s.executors }

/-- Adds a task and keeps the (possibly unchanged) state. -/
def addTaskState (s : Scheduler) (d : TaskDescriptor) : Scheduler :=
  (addTask s d).1

/-- A descriptor with the default knobs used by the scenarios. -/
def mkDesc (i ty : String) (p : TaskPriority) (deps : List String) : TaskDescriptor :=
  { id := i, taskType := ty, priority := p, dependencies := deps,
    retryCount := 0, retryStrategy := .FIXED, timeout := none, interruptible := false }

/-- A dependency chain through the registry: `DepChain ts p deps cs` holds
when the ids `cs` form a path that enters through the dependency list
`deps` and follows the `dependencies` relation, every node being tracked,
non-terminal, and of effective priority strictly below `p`. -/
inductive DepChain (ts : List Task) (p : TaskPriority) : List String → List String → Prop where
  | nil (deps : List String) : DepChain ts p deps []
  | cons (deps : List String) (c : String) (cs : List String) (t : Task) :
      c ∈ deps → getTask ts c = some t →
      isTerminal t.status = false → prioRank t.effectivePriority < prioRank p →
      DepChain ts p t.dependencies cs → DepChain ts p deps (c :: cs)

/-- The propagation potential: for every tracked, non-terminal task whose
effective priority is below `p`, one plus its dependency count. -/
def phi (p : TaskPriority) : List Task → Nat
  | [] => 0
  | t :: ts =>
    (if isTerminal t.status = false ∧ prioRank t.effectivePriority < prioRank p
     then 1 + t.dependencies.length else 0) + phi p ts

/-- Fuel sufficiency for the propagation DFS: at least the current
dependency list length plus the remaining potential. -/
def FuelOK (p : TaskPriority) (fuel : Nat) (ts : List Task) (deps : List String) : Prop :=
  deps.length + phi p ts ≤ fuel

/-- A field-wise shape relation: `F` only ever changes a task's effective
priority, and only by setting it to `p`. -/
structure IsShape (p : TaskPriority) (F : Task → Task) : Prop where
  idEq : ∀ t : Task, (F t).id = t.id
  statusEq : ∀ t : Task, (F t).status = t.status
  depsEq : ∀ t : Task, (F t).dependencies = t.dependencies
  seqEq : ∀ t : Task, (F t).enqueueSequence = t.enqueueSequence
  effEq : ∀ t : Task,
    (F t).effectivePriority = t.effectivePriority ∨ (F t).effectivePriority = p

/-- The deep-inheritance scenario S4: with a serial scheduler, A(LOW),
B(LOW, deps=[A]), C(HIGH, deps=[B]), D(NORMAL), in that insertion order. -/
def s4State : Scheduler :=
  let s0 := registerExecutor (mkScheduler none 60000) "CUSTOM"
  let s1 := addTaskState s0 (mkDesc "A" "CUSTOM" .LOW [])
  let s2 := addTaskState s1 (mkDesc "B" "CUSTOM" .LOW ["A"])
  let s3 := addTaskState s2 (mkDesc "C" "CUSTOM" .HIGH ["B"])
  addTaskState s3 (mkDesc "D" "CUSTOM" .NORMAL [])

/-- The state of scenario S4 just before task C is inserted. -/
def s4Pre : Scheduler :=
  let s0 := registerExecutor (mkScheduler none 60000) "CUSTOM"
  let s1 := addTaskState s0 (mkDesc "A" "CUSTOM" .LOW [])
  addTaskState s1 (mkDesc "B" "CUSTOM" .LOW ["A"])

/-- The priority-order scenario S2: three independent tasks inserted as
LOW, HIGH, NORMAL. -/
def s2State : Scheduler :=
  let s0 := registerExecutor (mkScheduler none 60000) "CUSTOM"
  let s1 := addTaskState s0 (mkDesc "LOW" "CUSTOM" .LOW [])
  let s2 := addTaskState s1 (mkDesc "HIGH" "CUSTOM" .HIGH [])
  addTaskState s2 (mkDesc "NORMAL" "CUSTOM" .NORMAL [])

/-- The linear dependency chain scenario: task1 <- task2 <- task3. -/
def chain3State : Scheduler :=
  let s0 := registerExecutor (mkScheduler none 60000) "CUSTOM"
  let s1 := addTaskState s0 (mkDesc "1" "CUSTOM" .NORMAL [])
  let s2 := addTaskState s1 (mkDesc "2" "CUSTOM" .NORMAL ["1"])
  addTaskState s2 (mkDesc "3" "CUSTOM" .NORMAL ["2"])

/-- A concrete task record with the given status and interruptibility. -/
def mkTaskRec (i : String) (st : TaskStatus) (intr : Bool) : Task :=
  { id := i, taskType := "CUSTOM", priority := .NORMAL, effectivePriority := .NORMAL,
    dependencies := [], status := st, enqueueSequence := 0, retryCount := 0,
    retryStrategy := .FIXED, timeout := none, interruptible := intr,
    aborted := false, error := none, finishedAt := none }

/-- A concrete completed task, finished at time `fin`. -/
def doneTask (i : String) (fin : Nat) : Task :=
  { mkTaskRec i .COMPLETED false with finishedAt := some fin }

/-- A scheduler tracking one completed task, finished at time 0, with a
retention period of 1000 ms. -/
def retentionState : Scheduler :=
  { tasks := [doneTask "d" 0], seqCounter := 1, executors := ["CUSTOM"],
    queueSizeLimit := none, retentionPeriod := 1000 }

/-- The queue-full scenario S8: `queueSizeLimit = 2` with two tasks added. -/
def queueFullState : Scheduler :=
  let s0 := registerExecutor (mkScheduler (some 2) 60000) "CUSTOM"
  let s1 := addTaskState s0 (mkDesc "1" "CUSTOM" .NORMAL [])
  addTaskState s1 (mkDesc "2" "CUSTOM" .NORMAL [])

end Sched

namespace Drivers

/-- A primitive JavaScript value carried in a message field. -/
inductive JsPrim where
  | pStr (s : String)
  | pNum (n : Int)
  | pBool (b : Bool)
  | pNull
  deriving DecidableEq, Repr

/-- The `data` of a message event: either a non-null object (a list of
fields) or a non-object primitive value (including `null`). -/
inductive JsData where
  | obj (fields : List (String × JsPrim))
  | prim (p : JsPrim)
  deriving DecidableEq, Repr

/-- A message object: an ordered list of named fields (keys unique in any
object produced by the JavaScript runtime). -/
abbrev MessageObj := List (String × JsPrim)

/-- Field-membership test, as the JavaScript `k in data`. -/
def hasField (m : MessageObj) (k : String) : Bool :=
  m.any (fun kv => kv.1 == k)

/-- Field lookup, first match, as the JavaScript `data[k]`. -/
def getField : MessageObj → String → Option JsPrim
  | [], _ => none
  | kv :: m, k => if kv.1 == k then some kv.2 else getField m k

/-- JavaScript spread-with-override `{...m, k: v}`: if `k` is present its
value is replaced in place, otherwise the field is appended. -/
def setField (m : MessageObj) (k : String) (v : JsPrim) : MessageObj :=
  if hasField m k then m.map (fun kv => if kv.1 == k then (kv.1, v) else kv)
  else m ++ [(k, v)]

/-- JavaScript rest-destructuring `{k, ...rest} = m`: removes the field `k`. -/
def removeField (m : MessageObj) (k : String) : MessageObj :=
  m.filter (fun kv => !(kv.1 == k))

/-- The protocol identifier constant `MESSAGE_BRIDGE_PROTOCOL`
(`'message-bridge-v1'`) from `BroadcastDriver.ts` / `PostMessageDriver.ts`. -/
def MESSAGE_BRIDGE_PROTOCOL : String := "message-bridge-v1"

/-- `isBridgeMessage(data)` from the driver sources: `data` is a non-null
object whose `__messageBridge` field equals the protocol constant. -/
def isBridgeMessage : JsData → Bool
  | .obj fields =>
    hasField fields "__messageBridge" &&
      (getField fields "__messageBridge" == some (.pStr MESSAGE_BRIDGE_PROTOCOL))
  | .prim _ => false

/-- `BroadcastDriver.send(data)`: wraps the message with the protocol field
(`{...data, __messageBridge: MESSAGE_BRIDGE_PROTOCOL}`) before posting. -/
def BroadcastDriver.send (m : MessageObj) : MessageObj :=
  setField m "__messageBridge" (.pStr MESSAGE_BRIDGE_PROTOCOL)

/-- The `BroadcastDriver` message handler: if the event data is not a bridge
message it returns (invokes nothing); otherwise it strips `__messageBridge`
and passes the rest to `onMessage`. `some m` means `onMessage` is invoked
with `m`; `none` means it is not invoked. -/
def BroadcastDriver.receive (data : JsData) : Option MessageObj :=
  if isBridgeMessage data then
    match data with
    | .obj fields => some (removeField fields "__messageBridge")
    | .prim _ => none
  else none

/-- `PostMessageDriver.send(data)`: identical wrapping with the protocol
field before `targetWindow.postMessage`. -/
def PostMessageDriver.send (m : MessageObj) : MessageObj :=
  setField m "__messageBridge" (.pStr MESSAGE_BRIDGE_PROTOCOL)

/-- The `PostMessageDriver` message listener: drops events whose `origin`
differs from the configured `targetOrigin`, then filters and strips exactly
as the broadcast handler. -/
def PostMessageDriver.receive (targetOrigin : String) (origin : String) (data : JsData) :
    Option MessageObj :=
  if origin != targetOrigin then none
  else if isBridgeMessage data then
    match data with
    | .obj fields => some (removeField fields "__messageBridge")
    | .prim _ => none
  else none

end Drivers

/-! ## Driver lemmas (C9, C10) -/

namespace Drivers

theorem getField_append_single (m : MessageObj) (k : String) (v : JsPrim)
    (h : hasField m k = false) : getField (m ++ [(k, v)]) k = some v := by
  induction m with
  | nil => simp [getField]
  | cons kv m ih =>
    simp only [hasField, List.any_cons, Bool.or_eq_false_iff] at h
    simpa [getField, h.1] using ih (by simpa [hasField] using h.2)

theorem removeField_of_not_has (m : MessageObj) (k : String)
    (h : hasField m k = false) : removeField m k = m := by
  induction m with
  | nil => rfl
  | cons kv m ih =>
    simp only [hasField, List.any_cons, Bool.or_eq_false_iff] at h
    have ih' : removeField m k = m := ih (by simpa [hasField] using h.2)
    simp only [removeField] at ih' ⊢
    rw [List.filter_cons]
    simp [h.1, ih']

theorem hasField_append_single (m : MessageObj) (k : String) (v : JsPrim) :
    hasField (m ++ [(k, v)]) k = true := by
  simp [hasField]

theorem removeField_append (m l : MessageObj) (k : String) :
    removeField (m ++ l) k = removeField m k ++ removeField l k := by
  simp [removeField]

/-- C9: Driver send/receive round-trip. For every message `m` (which, being a
plain `Message`, does not carry the protocol field), the wire payload
produced by `send(m)` is exactly `m` with the single extra field
`__messageBridge` set to the protocol constant, and the receive handler
applied to an event carrying that payload — for `PostMessageDriver`, with
the event origin equal to the configured `targetOrigin` — invokes
`onMessage` with exactly the original `m`, the protocol field stripped. -/
theorem driver_send_receive_roundtrip (m : MessageObj)
    (h : hasField m "__messageBridge" = false) :
    BroadcastDriver.send m = m ++ [("__messageBridge", .pStr MESSAGE_BRIDGE_PROTOCOL)] ∧
    BroadcastDriver.receive (.obj (BroadcastDriver.send m)) = some m ∧
    ∀ origin : String,
      PostMessageDriver.receive origin origin (.obj (PostMessageDriver.send m)) = some m := by
  have hsend : BroadcastDriver.send m
      = m ++ [("__messageBridge", .pStr MESSAGE_BRIDGE_PROTOCOL)] := by
    simp [BroadcastDriver.send, setField, h]
  have hbridge : isBridgeMessage (.obj (m ++ [("__messageBridge", .pStr MESSAGE_BRIDGE_PROTOCOL)])) = true := by
    simp [isBridgeMessage, hasField_append_single,
      getField_append_single m _ _ h]
  have hstrip : removeField (m ++ [("__messageBridge", .pStr MESSAGE_BRIDGE_PROTOCOL)]) "__messageBridge" = m := by
    rw [removeField_append, removeField_of_not_has m _ h]
    simp [removeField]
  refine ⟨hsend, ?_, ?_⟩
  · rw [hsend, BroadcastDriver.receive, hbridge]
    simpa using hstrip
  · intro origin
    have hsend' : PostMessageDriver.send m
        = m ++ [("__messageBridge", .pStr MESSAGE_BRIDGE_PROTOCOL)] := by
      simp [PostMessageDriver.send, setField, h]
    rw [hsend', PostMessageDriver.receive]
    simp only [bne_self_eq_false, Bool.false_eq_true, if_false, hbridge, if_true]
    simpa using hstrip

/-- C9 witness: the round-trip at the test suite's concrete message
`{id: 'test', type: 'test', from: 'sender'}`. -/
theorem driver_send_receive_roundtrip_witness :
    BroadcastDriver.receive (.obj (BroadcastDriver.send
      [("id", .pStr "test"), ("type", .pStr "test"), ("from", .pStr "sender")])) =
      some [("id", .pStr "test"), ("type", .pStr "test"), ("from", .pStr "sender")] :=
  (driver_send_receive_roundtrip
    [("id", .pStr "test"), ("type", .pStr "test"), ("from", .pStr "sender")]
    (by decide)).2.1

/-- C10: Driver inbound filtering. The receive handler never invokes
`onMessage` for an event whose data is not a non-null object whose
`__messageBridge` field equals the protocol constant, and
`PostMessageDriver` additionally never invokes `onMessage` for an event
whose origin differs from the configured `targetOrigin`. -/
theorem driver_inbound_filtering :
    (∀ d : JsData, isBridgeMessage d = false → BroadcastDriver.receive d = none) ∧
    (∀ targetOrigin origin : String, ∀ d : JsData, origin ≠ targetOrigin →
       PostMessageDriver.receive targetOrigin origin d = none) ∧
    (∀ targetOrigin origin : String, ∀ d : JsData, isBridgeMessage d = false →
       PostMessageDriver.receive targetOrigin origin d = none) := by
  refine ⟨?_, ?_, ?_⟩
  · intro d hd
    simp [BroadcastDriver.receive, hd]
  · intro tOrigin origin d hne
    simp [PostMessageDriver.receive, bne_iff_ne, hne]
  · intro tOrigin origin d hd
    by_cases horigin : origin = tOrigin
    · simp [PostMessageDriver.receive, horigin, hd]
    · simp [PostMessageDriver.receive, bne_iff_ne, horigin]

/-- C10 witness: a same-origin event whose payload lacks the protocol field
is dropped by both drivers, and a cross-origin bridge message is dropped by
`PostMessageDriver`. -/
theorem driver_inbound_filtering_witness :
    BroadcastDriver.receive (.obj [("id", .pStr "test")]) = none ∧
    PostMessageDriver.receive "https://a.example" "https://evil.example"
      (.obj [("__messageBridge", .pStr "message-bridge-v1")]) = none ∧
    PostMessageDriver.receive "https://a.example" "https://a.example"
      (.obj [("id", .pStr "test")]) = none :=
  ⟨driver_inbound_filtering.1 (.obj [("id", .pStr "test")]) (by decide),
   driver_inbound_filtering.2.1 "https://a.example" "https://evil.example"
     (.obj [("__messageBridge", .pStr "message-bridge-v1")]) (by decide),
   driver_inbound_filtering.2.2 "https://a.example" "https://a.example"
     (.obj [("id", .pStr "test")]) (by decide)⟩

end Drivers

/-! ## Scheduler registry lemmas -/

namespace Sched

theorem getTask_map (F : Task → Task) (hF : ∀ t, (F t).id = t.id)
    (ts : List Task) (i : String) : getTask (ts.map F) i = (getTask ts i).map F := by
  induction ts with
  | nil => rfl
  | cons t ts ih =>
    simp only [List.map_cons, getTask, hF t]
    cases h : (t.id == i)
    · simpa [h] using ih
    · simp [h]

theorem getTask_eq_some_id {ts : List Task} {i : String} {t : Task}
    (h : getTask ts i = some t) : t.id = i := by
  induction ts with
  | nil => simp [getTask] at h
  | cons u ts ih =>
    simp only [getTask] at h
    cases hu : (u.id == i)
    · rw [hu] at h
      exact ih (by simpa using h)
    · rw [hu] at h
      simp only [if_true] at h
      cases h
      exact eq_of_beq hu

theorem getTask_append_some {ts : List Task} {i : String} {t : Task} (l : List Task)
    (h : getTask ts i = some t) : getTask (ts ++ l) i = some t := by
  induction ts with
  | nil => simp [getTask] at h
  | cons u ts ih =>
    simp only [getTask] at h ⊢
    cases hu : (u.id == i)
    · rw [hu] at h
      simpa [hu] using ih (by simpa using h)
    · rw [hu] at h
      simpa [hu] using h

theorem getTask_append_none {ts : List Task} {i : String} (l : List Task)
    (h : getTask ts i = none) : getTask (ts ++ l) i = getTask l i := by
  induction ts with
  | nil => simp [getTask]
  | cons u ts ih =>
    simp only [getTask] at h ⊢
    cases hu : (u.id == i)
    · rw [hu] at h
      simpa [hu] using ih (by simpa using h)
    · rw [hu] at h
      simp at h

theorem getTask_mem {ts : List Task} {i : String} {t : Task}
    (h : getTask ts i = some t) : t ∈ ts := by
  induction ts with
  | nil => simp [getTask] at h
  | cons u ts ih =>
    simp only [getTask] at h
    cases hu : (u.id == i)
    · rw [hu] at h
      exact List.mem_cons_of_mem u (ih (by simpa using h))
    · rw [hu] at h
      simp only [if_true] at h
      cases h
      exact List.mem_cons_self _ _

end Sched

/-! ## C4 — exponential backoff -/

namespace Sched

/-- C4: Under `EXPONENTIAL` retry strategy the delay before retry attempt
`k` equals `baseDelay × 2^(k−1)`, so consecutive inter-attempt delays are
strictly increasing for every task that retries at least twice; and with
`retryCount = 2` and an executor that fails twice then succeeds, exactly 3
attempts occur and the task completes. -/
theorem exponential_backoff :
    (∀ baseDelay k : Nat, retryDelay .EXPONENTIAL baseDelay k = baseDelay * 2 ^ (k - 1)) ∧
    (∀ baseDelay k : Nat, 0 < baseDelay → 1 ≤ k →
       retryDelay .EXPONENTIAL baseDelay k < retryDelay .EXPONENTIAL baseDelay (k + 1)) ∧
    runTaskLoop failTwiceExec 0 3 = (.COMPLETED, none,
      [.TASK_STARTED 0, .TASK_RETRY 1, .TASK_STARTED 1, .TASK_RETRY 2,
       .TASK_STARTED 2, .TASK_COMPLETED]) ∧
    startedCount (runTaskLoop failTwiceExec 0 3).2.2 = 3 := by
  refine ⟨fun b k => rfl, ?_, by decide, by decide⟩
  intro b k hb hk
  simp only [retryDelay, Nat.add_sub_cancel]
  have h2 : 2 ^ (k - 1) < 2 ^ k := Nat.pow_lt_pow_right (by norm_num) (by omega)
  exact mul_lt_mul_of_pos_left h2 hb

/-- C4 witness: with `baseDelay = 100`, the delay before the first retry is
strictly below the delay before the second retry. -/
theorem exponential_backoff_witness :
    retryDelay .EXPONENTIAL 100 1 < retryDelay .EXPONENTIAL 100 2 :=
  exponential_backoff.2.1 100 1 (by decide) (by decide)

end Sched

/-! ## C5 — timeout -/

namespace Sched

/-- C5: For every task with timeout `t` whose attempt does not settle
within `t` ms, the attempt terminates with error `"Task timeout"` and the
abort signal aborted, and the outcome counts as a failure: with
`retryCount = 0` (a single allowed attempt) the task ends `FAILED` and
`TASK_FAILED` carries the error `"Task timeout"`. -/
theorem timeout_fails_task (dur t : Nat) (execFails : Bool) (h : t < dur) :
    runAttempt dur execFails (some t)
      = { error := some "Task timeout", aborted := true, ok := false } ∧
    runTaskLoop (fun _ => runAttempt dur execFails (some t)) 0 1 =
      (.FAILED, some "Task timeout", [.TASK_STARTED 0, .TASK_FAILED (some "Task timeout")]) := by
  have hA : runAttempt dur execFails (some t)
      = { error := some "Task timeout", aborted := true, ok := false } := by
    simp [runAttempt, h]
  exact ⟨hA, by simp [runTaskLoop, hA]⟩

/-- C5 witness: the test scenario — the executor sleeps 500 ms under a
100 ms timeout; the single attempt fails with `"Task timeout"`. -/
theorem timeout_fails_task_witness :
    runAttempt 500 false (some 100)
      = { error := some "Task timeout", aborted := true, ok := false } ∧
    runTaskLoop (fun _ => runAttempt 500 false (some 100)) 0 1 =
      (.FAILED, some "Task timeout", [.TASK_STARTED 0, .TASK_FAILED (some "Task timeout")]) :=
  timeout_fails_task 500 100 false (by decide)

end Sched

/-! ## C6 — cancellation -/

namespace Sched

theorem cancelUpd_id (i : String) : ∀ u : Task, (cancelUpd i u).id = u.id := by
  intro u
  unfold cancelUpd
  split <;> rfl

/-- C6: `cancelTask(id)` on an interruptible, non-terminal task aborts the
task's signal, sets the status to `CANCELLED` and emits `TASK_CANCELLED`;
on a non-interruptible `RUNNING` task it has no effect; `PENDING` tasks
are cancelled unconditionally. -/
theorem cancelTask_semantics (ts : List Task) (i : String) (t : Task)
    (hget : getTask ts i = some t) :
    ((t.interruptible = true ∧ isTerminal t.status = false) →
       (cancelTask ts i).2.1 = true ∧
       getTask (cancelTask ts i).1 i = some { t with status := .CANCELLED, aborted := true } ∧
       (cancelTask ts i).2.2 = [.TASK_CANCELLED i]) ∧
    ((t.status = .RUNNING ∧ t.interruptible = false) → cancelTask ts i = (ts, false, [])) ∧
    (t.status = .PENDING →
       (cancelTask ts i).2.1 = true ∧
       getTask (cancelTask ts i).1 i = some { t with status := .CANCELLED, aborted := true } ∧
       (cancelTask ts i).2.2 = [.TASK_CANCELLED i]) := by
  have hid : t.id = i := getTask_eq_some_id hget
  have hmap : getTask (ts.map (cancelUpd i)) i
      = some { t with status := .CANCELLED, aborted := true } := by
    rw [getTask_map _ (cancelUpd_id i), hget]
    simp [cancelUpd, hid]
  refine ⟨?_, ?_, ?_⟩
  · rintro ⟨hint, hterm⟩
    have hcan : canCancel t = true := by simp [canCancel, hint, hterm]
    have hc : cancelTask ts i = (ts.map (cancelUpd i), true, [.TASK_CANCELLED i]) := by
      simp [cancelTask, hget, hcan]
    exact ⟨by rw [hc], by rw [hc]; exact hmap, by rw [hc]⟩
  · rintro ⟨hst, hint⟩
    have hcan : canCancel t = false := by simp [canCancel, hst, hint, isTerminal]
    simp [cancelTask, hget, hcan]
  · intro hst
    have hcan : canCancel t = true := by simp [canCancel, hst]
    have hc : cancelTask ts i = (ts.map (cancelUpd i), true, [.TASK_CANCELLED i]) := by
      simp [cancelTask, hget, hcan]
    exact ⟨by rw [hc], by rw [hc]; exact hmap, by rw [hc]⟩

/-- C6 witness: cancelling a running interruptible task cancels and aborts
it; cancelling a running non-interruptible task has no effect; cancelling
a pending non-interruptible task cancels it. -/
theorem cancelTask_semantics_witness :
    ((cancelTask [mkTaskRec "t" .RUNNING true] "t").2.1 = true ∧
       getTask (cancelTask [mkTaskRec "t" .RUNNING true] "t").1 "t"
         = some { mkTaskRec "t" .RUNNING true with status := .CANCELLED, aborted := true } ∧
       (cancelTask [mkTaskRec "t" .RUNNING true] "t").2.2 = [.TASK_CANCELLED "t"]) ∧
    cancelTask [mkTaskRec "s" .RUNNING false] "s" = ([mkTaskRec "s" .RUNNING false], false, []) ∧
    (cancelTask [mkTaskRec "p" .PENDING false] "p").2.1 = true :=
  ⟨(cancelTask_semantics [mkTaskRec "t" .RUNNING true] "t" (mkTaskRec "t" .RUNNING true)
      (by decide)).1 ⟨rfl, rfl⟩,
   (cancelTask_semantics [mkTaskRec "s" .RUNNING false] "s" (mkTaskRec "s" .RUNNING false)
      (by decide)).2.1 ⟨rfl, rfl⟩,
   ((cancelTask_semantics [mkTaskRec "p" .PENDING false] "p" (mkTaskRec "p" .PENDING false)
      (by decide)).2.2 rfl).1⟩

end Sched

/-! ## C7 — addTask validation -/

namespace Sched

/-- C7: `addTask` raises a validation error exactly when one of the
validation conditions holds — queue full (`totalTasks ≥ queueSizeLimit`),
duplicate id, no registered executor, unknown dependency — reporting the
condition-specific error (in the spec's checking order), and whenever it
raises an error no scheduler state is mutated. The final conjuncts record
the error messages, matching the regexes of the test suite. -/
theorem addTask_validation (s : Scheduler) (d : TaskDescriptor) :
    ((∃ e, (addTask s d).2 = Except.error e) ↔
       (queueFullB s = true ∨ (getTask s.tasks d.id).isSome = true ∨
        s.executors.contains d.taskType = false ∨
        d.dependencies.all (fun c => (getTask s.tasks c).isSome) = false)) ∧
    (queueFullB s = true → addTask s d = (s, .error .queueFull)) ∧
    (queueFullB s = false → (getTask s.tasks d.id).isSome = true →
       addTask s d = (s, .error .duplicateId)) ∧
    (queueFullB s = false → (getTask s.tasks d.id).isSome = false →
       s.executors.contains d.taskType = false → addTask s d = (s, .error .noExecutor)) ∧
    (queueFullB s = false → (getTask s.tasks d.id).isSome = false →
       s.executors.contains d.taskType = true →
       d.dependencies.all (fun c => (getTask s.tasks c).isSome) = false →
       addTask s d = (s, .error .unknownDependency)) ∧
    (∀ e, (addTask s d).2 = Except.error e → (addTask s d).1 = s) ∧
    errMessage .queueFull = "Queue size limit reached" ∧
    errMessage .duplicateId = "Task id already exists" ∧
    errMessage .noExecutor = "No executor registered for task type" := by
  have e1 : queueFullB s = true → addTask s d = (s, .error .queueFull) := by
    intro h1
    unfold addTask
    rw [h1]
    simp
  have e2 : queueFullB s = false → (getTask s.tasks d.id).isSome = true →
      addTask s d = (s, .error .duplicateId) := by
    intro h1 h2
    unfold addTask
    rw [h1, h2]
    simp
  have e3 : queueFullB s = false → (getTask s.tasks d.id).isSome = false →
      s.executors.contains d.taskType = false → addTask s d = (s, .error .noExecutor) := by
    intro h1 h2 h3
    unfold addTask
    rw [h1, h2, h3]
    simp
  have e4 : queueFullB s = false → (getTask s.tasks d.id).isSome = false →
      s.executors.contains d.taskType = true →
      d.dependencies.all (fun c => (getTask s.tasks c).isSome) = false →
      addTask s d = (s, .error .unknownDependency) := by
    intro h1 h2 h3 h4
    unfold addTask
    rw [h1, h2, h3, h4]
    simp
  have e5 : queueFullB s = false → (getTask s.tasks d.id).isSome = false →
      s.executors.contains d.taskType = true →
      d.dependencies.all (fun c => (getTask s.tasks c).isSome) = true →
      (addTask s d).2 = .ok d.id := by
    intro h1 h2 h3 h4
    unfold addTask
    rw [h1, h2, h3, h4]
    simp
  have hok : ∀ e, (addTask s d).2 = Except.error e → (addTask s d).1 = s := by
    intro e he
    cases h1 : queueFullB s with
    | true => rw [e1 h1]
    | false =>
      cases h2 : (getTask s.tasks d.id).isSome with
      | true => rw [e2 h1 h2]
      | false =>
        cases h3 : s.executors.contains d.taskType with
        | false => rw [e3 h1 h2 h3]
        | true =>
          cases h4 : d.dependencies.all (fun c => (getTask s.tasks c).isSome) with
          | false => rw [e4 h1 h2 h3 h4]
          | true =>
            rw [e5 h1 h2 h3 h4] at he
            simp at he
  refine ⟨⟨?_, ?_⟩, e1, e2, e3, e4, hok, rfl, rfl, rfl⟩
  · rintro ⟨e, he⟩
    cases h1 : queueFullB s with
    | true => exact Or.inl rfl
    | false =>
      cases h2 : (getTask s.tasks d.id).isSome with
      | true => exact Or.inr (Or.inl rfl)
      | false =>
        cases h3 : s.executors.contains d.taskType with
        | false => exact Or.inr (Or.inr (Or.inl rfl))
        | true =>
          cases h4 : d.dependencies.all (fun c => (getTask s.tasks c).isSome) with
          | false => exact Or.inr (Or.inr (Or.inr rfl))
          | true =>
            rw [e5 h1 h2 h3 h4] at he
            simp at he
  · intro hR
    cases h1 : queueFullB s with
    | true => exact ⟨.queueFull, by rw [e1 h1]⟩
    | false =>
      cases h2 : (getTask s.tasks d.id).isSome with
      | true => exact ⟨.duplicateId, by rw [e2 h1 h2]⟩
      | false =>
        cases h3 : s.executors.contains d.taskType with
        | false => exact ⟨.noExecutor, by rw [e3 h1 h2 h3]⟩
        | true =>
          cases h4 : d.dependencies.all (fun c => (getTask s.tasks c).isSome) with
          | false => exact ⟨.unknownDependency, by rw [e4 h1 h2 h3 h4]⟩
          | true =>
            exfalso
            rcases hR with hr | hr | hr | hr
            · rw [h1] at hr; simp at hr
            · rw [h2] at hr; simp at hr
            · rw [h3] at hr; simp at hr
            · rw [h4] at hr; simp at hr

/-- C7 witness: with `queueSizeLimit = 2` and two tasks tracked, adding a
third task is rejected with the queue-full error and the state is
unchanged; a duplicate id and an unregistered type are likewise rejected. -/
theorem addTask_validation_witness :
    addTask queueFullState (mkDesc "3" "CUSTOM" .NORMAL [])
      = (queueFullState, .error .queueFull) ∧
    addTask s2State (mkDesc "LOW" "CUSTOM" .NORMAL []) = (s2State, .error .duplicateId) ∧
    addTask s2State (mkDesc "X" "OTHER" .NORMAL []) = (s2State, .error .noExecutor) :=
  ⟨(addTask_validation queueFullState (mkDesc "3" "CUSTOM" .NORMAL [])).2.1 (by decide),
   (addTask_validation s2State (mkDesc "LOW" "CUSTOM" .NORMAL [])).2.2.1 (by decide) (by decide),
   (addTask_validation s2State (mkDesc "X" "OTHER" .NORMAL [])).2.2.2.1
     (by decide) (by decide) (by decide)⟩

end Sched

/-! ## Priority propagation: shape lemmas -/

namespace Sched

theorem isShape_id (p : TaskPriority) : IsShape p (fun t => t) :=
  ⟨fun _ => rfl, fun _ => rfl, fun _ => rfl, fun _ => rfl, fun t => Or.inl rfl⟩

theorem isShape_comp {p : TaskPriority} {F G : Task → Task}
    (hF : IsShape p F) (hG : IsShape p G) : IsShape p (fun t => G (F t)) := by
  refine ⟨fun t => ?_, fun t => ?_, fun t => ?_, fun t => ?_, fun t => ?_⟩
  · rw [hG.idEq, hF.idEq]
  · rw [hG.statusEq, hF.statusEq]
  · rw [hG.depsEq, hF.depsEq]
  · rw [hG.seqEq, hF.seqEq]
  · rcases hG.effEq (F t) with h | h
    · rcases hF.effEq t with h' | h'
      · exact Or.inl (h.trans h')
      · exact Or.inr (h.trans h')
    · exact Or.inr h

theorem isShape_raiseUpd (i : String) (p : TaskPriority) : IsShape p (raiseUpd i p) := by
  refine ⟨fun t => ?_, fun t => ?_, fun t => ?_, fun t => ?_, fun t => ?_⟩ <;>
    · unfold raiseUpd
      split
      · simp
      · simp

theorem raiseUpd_ne {i : String} {t : Task} (h : t.id ≠ i) (p : TaskPriority) :
    raiseUpd i p t = t := by
  unfold raiseUpd
  rw [if_neg]
  simp [h]

theorem raiseUpd_eq {i : String} {t : Task} (h : t.id = i) (p : TaskPriority) :
    raiseUpd i p t = { t with effectivePriority := p } := by
  unfold raiseUpd
  rw [if_pos]
  simp [h]

theorem updEff_getTask (ts : List Task) (i j : String) (p : TaskPriority) :
    getTask (updEff ts i p) j = (getTask ts j).map (raiseUpd i p) :=
  getTask_map _ (isShape_raiseUpd i p).idEq ts j

/-- The propagation DFS only rewrites effective priorities to `p`: its
result is a pointwise image of its input under a shape-preserving map. -/
theorem propagate_mapF (p : TaskPriority) :
    ∀ fuel ts deps, ∃ F : Task → Task,
      propagatePriority p fuel ts deps = ts.map F ∧ IsShape p F := by
  intro fuel
  induction fuel with
  | zero =>
    intro ts deps
    exact ⟨fun t => t, by simp [propagatePriority], isShape_id p⟩
  | succ fuel ih =>
    intro ts deps
    cases deps with
    | nil => exact ⟨fun t => t, by simp [propagatePriority], isShape_id p⟩
    | cons d ds =>
      cases hg : getTask ts d with
      | none =>
        obtain ⟨F, hF, hSh⟩ := ih ts ds
        exact ⟨F, by rw [← hF]; simp [propagatePriority, hg], hSh⟩
      | some t =>
        by_cases ht : isTerminal t.status
        · obtain ⟨F, hF, hSh⟩ := ih ts ds
          exact ⟨F, by rw [← hF]; simp [propagatePriority, hg, ht], hSh⟩
        · by_cases hlt : prioRank t.effectivePriority < prioRank p
          · obtain ⟨F1, hF1, hSh1⟩ := ih (updEff ts d p) t.dependencies
            obtain ⟨F2, hF2, hSh2⟩ :=
              ih (propagatePriority p fuel (updEff ts d p) t.dependencies) ds
            refine ⟨fun u => F2 (F1 (raiseUpd d p u)), ?_, ?_⟩
            · have hres : propagatePriority p (fuel + 1) ts (d :: ds)
                  = propagatePriority p fuel
                    (propagatePriority p fuel (updEff ts d p) t.dependencies) ds := by
                simp [propagatePriority, hg, ht, hlt]
              rw [hres, hF2, hF1, updEff, List.map_map, List.map_map]
              rfl
            · exact isShape_comp (isShape_comp (isShape_raiseUpd d p) hSh1) hSh2
          · obtain ⟨F, hF, hSh⟩ := ih ts ds
            exact ⟨F, by rw [← hF]; simp [propagatePriority, hg, ht, hlt], hSh⟩

/-- Ids absent before propagation stay absent. -/
theorem propagate_none {p : TaskPriority} {fuel : Nat} {ts : List Task} {deps : List String}
    {i : String} (h : getTask ts i = none) :
    getTask (propagatePriority p fuel ts deps) i = none := by
  obtain ⟨F, hF, hSh⟩ := propagate_mapF p fuel ts deps
  rw [hF, getTask_map F hSh.idEq, h]
  rfl

/-- A task already at effective priority `p` stays at `p` through the
propagation DFS. -/
theorem propagate_keeps_p {p : TaskPriority} {fuel : Nat} {ts : List Task} {deps : List String}
    {i : String} {u : Task} (hg : getTask ts i = some u)
    (he : u.effectivePriority = p) :
    effOf (propagatePriority p fuel ts deps) i = some p := by
  obtain ⟨F, hF, hSh⟩ := propagate_mapF p fuel ts deps
  rw [effOf, hF, getTask_map F hSh.idEq, hg]
  rcases hSh.effEq u with h | h
  · simp [h, he]
  · simp [h]

end Sched

/-! ## Priority propagation: potential and fuel -/

namespace Sched

theorem phi_map_le {p : TaskPriority} {F : Task → Task} (hSh : IsShape p F) :
    ∀ ts, phi p (ts.map F) ≤ phi p ts := by
  intro ts
  induction ts with
  | nil => simp [phi]
  | cons t ts ih =>
    simp only [List.map_cons, phi, hSh.statusEq, hSh.depsEq]
    rcases hSh.effEq t with heff | heff
    · rw [heff]
      exact Nat.add_le_add (Nat.le_refl _) ih
    · rw [heff]
      have hno : ¬(isTerminal t.status = false ∧ prioRank p < prioRank p) := by
        rintro ⟨_, h⟩
        exact absurd h (lt_irrefl _)
      rw [if_neg hno]
      simpa using le_trans ih (Nat.le_add_left _ _)

theorem phi_updEff_le {p : TaskPriority} {ts : List Task} {d : String} {t : Task}
    (hg : getTask ts d = some t) (hterm : isTerminal t.status = false)
    (hlt : prioRank t.effectivePriority < prioRank p) :
    phi p (updEff ts d p) + 1 + t.dependencies.length ≤ phi p ts := by
  induction ts with
  | nil => simp [getTask] at hg
  | cons u ts ih =>
    simp only [getTask] at hg
    cases hu : (u.id == d) with
    | true =>
      have hud : u.id = d := eq_of_beq hu
      rw [hu] at hg
      simp only [if_true] at hg
      injection hg with hg'
      subst hg'
      have hcond : isTerminal u.status = false ∧ prioRank u.effectivePriority < prioRank p :=
        ⟨hterm, hlt⟩
      have h1 : phi p (u :: ts) = 1 + u.dependencies.length + phi p ts := by
        simp [phi, if_pos hcond]
      have h2 : updEff (u :: ts) d p = { u with effectivePriority := p } :: updEff ts d p := by
        simp [updEff, raiseUpd_eq hud]
      have hno : ¬(isTerminal ({ u with effectivePriority := p } : Task).status = false ∧
          prioRank ({ u with effectivePriority := p } : Task).effectivePriority < prioRank p) := by
        rintro ⟨_, h⟩
        exact absurd h (lt_irrefl _)
      have h3 : phi p ({ u with effectivePriority := p } :: updEff ts d p)
          = phi p (updEff ts d p) := by
        simp [phi, if_neg hno]
      have h4 : phi p (updEff ts d p) ≤ phi p ts := phi_map_le (isShape_raiseUpd d p) ts
      rw [h2, h3, h1]
      omega
    | false =>
      have hud : u.id ≠ d := by simpa using hu
      rw [hu] at hg
      simp only [Bool.false_eq_true, if_false] at hg
      have ih' := ih hg
      have h2 : updEff (u :: ts) d p = u :: updEff ts d p := by
        simp [updEff, raiseUpd_ne hud]
      rw [h2]
      simp only [phi]
      omega

theorem phi_le_depWeight (p : TaskPriority) : ∀ ts, phi p ts ≤ depWeight ts := by
  intro ts
  induction ts with
  | nil => simp [phi, depWeight]
  | cons t ts ih =>
    simp only [phi, depWeight]
    split
    · omega
    · omega

theorem effOf_eq_some {ts : List Task} {i : String} {p : TaskPriority}
    (h : effOf ts i = some p) :
    ∃ u, getTask ts i = some u ∧ u.effectivePriority = p := by
  unfold effOf at h
  cases hx : getTask ts i with
  | none => rw [hx] at h; cases h
  | some u =>
    rw [hx] at h
    exact ⟨u, rfl, by simpa using h⟩

end Sched

/-! ## Priority propagation: the head lemma -/

namespace Sched

/-- Every dependency in the initial list that is tracked, non-terminal and
strictly below `p` ends at effective priority `p` after the propagation
DFS (given sufficient fuel). -/
theorem propagate_head (p : TaskPriority) :
    ∀ fuel ts deps, FuelOK p fuel ts deps →
      ∀ d t, d ∈ deps → getTask ts d = some t → isTerminal t.status = false →
        prioRank t.effectivePriority < prioRank p →
        effOf (propagatePriority p fuel ts deps) d = some p := by
  intro fuel
  induction fuel with
  | zero =>
    intro ts deps hful d t hd hg hterm hlt
    exfalso
    have hlen : deps.length = 0 := by
      unfold FuelOK at hful
      omega
    rw [List.length_eq_zero] at hlen
    subst hlen
    cases hd
  | succ fuel ih =>
    intro ts deps hful d t hd hg hterm hlt
    cases deps with
    | nil => cases hd
    | cons d0 ds =>
      have hskip : FuelOK p fuel ts ds := by
        unfold FuelOK at hful ⊢
        simp only [List.length_cons] at hful
        omega
      cases hg0 : getTask ts d0 with
      | none =>
        have hres : propagatePriority p (fuel + 1) ts (d0 :: ds)
            = propagatePriority p fuel ts ds := by
          simp [propagatePriority, hg0]
        rw [hres]
        rcases List.mem_cons.mp hd with rfl | hd'
        · rw [hg0] at hg; cases hg
        · exact ih ts ds hskip d t hd' hg hterm hlt
      | some t0 =>
        by_cases ht0 : isTerminal t0.status
        · have hres : propagatePriority p (fuel + 1) ts (d0 :: ds)
              = propagatePriority p fuel ts ds := by
            simp [propagatePriority, hg0, ht0]
          rw [hres]
          rcases List.mem_cons.mp hd with rfl | hd'
          · rw [hg0] at hg
            injection hg with h
            rw [← h] at hterm
            exact absurd hterm (by simp [ht0])
          · exact ih ts ds hskip d t hd' hg hterm hlt
        · by_cases hlt0 : prioRank t0.effectivePriority < prioRank p
          · have hterm0 : isTerminal t0.status = false := by simpa using ht0
            have hres : propagatePriority p (fuel + 1) ts (d0 :: ds)
                = propagatePriority p fuel
                    (propagatePriority p fuel (updEff ts d0 p) t0.dependencies) ds := by
              simp [propagatePriority, hg0, ht0, hlt0]
            rw [hres]
            have hphiupd := phi_updEff_le hg0 hterm0 hlt0
            have hfin : FuelOK p fuel (updEff ts d0 p) t0.dependencies := by
              unfold FuelOK at hful ⊢
              simp only [List.length_cons] at hful
              omega
            obtain ⟨F1, hF1, hSh1⟩ := propagate_mapF p fuel (updEff ts d0 p) t0.dependencies
            have hphiacc : phi p (propagatePriority p fuel (updEff ts d0 p) t0.dependencies)
                ≤ phi p (updEff ts d0 p) := by
              rw [hF1]
              exact phi_map_le hSh1 _
            have hfout : FuelOK p fuel
                (propagatePriority p fuel (updEff ts d0 p) t0.dependencies) ds := by
              unfold FuelOK at hful ⊢
              simp only [List.length_cons] at hful
              omega
            rcases List.mem_cons.mp hd with rfl | hd'
            · have hud : t0.id = d := getTask_eq_some_id hg0
              have hupd : getTask (updEff ts d p) d
                  = some { t0 with effectivePriority := p } := by
                rw [updEff_getTask, hg0]
                simp [raiseUpd_eq hud]
              have h1 : effOf (propagatePriority p fuel (updEff ts d p) t0.dependencies) d
                  = some p := propagate_keeps_p hupd rfl
              obtain ⟨u1, hu1, hu1e⟩ := effOf_eq_some h1
              exact propagate_keeps_p hu1 hu1e
            · have hacc_get : getTask
                  (propagatePriority p fuel (updEff ts d0 p) t0.dependencies) d
                  = some (F1 (raiseUpd d0 p t)) := by
                rw [hF1, getTask_map F1 hSh1.idEq, updEff_getTask, hg]
                rfl
              have hcomp := isShape_comp (isShape_raiseUpd d0 p) hSh1
              rcases hcomp.effEq t with heff | heff
              · refine ih _ ds hfout d (F1 (raiseUpd d0 p t)) hd' hacc_get ?_ ?_
                · rw [hcomp.statusEq t]
                  exact hterm
                · rw [heff]
                  exact hlt
              · exact propagate_keeps_p hacc_get heff
          · have hres : propagatePriority p (fuel + 1) ts (d0 :: ds)
                = propagatePriority p fuel ts ds := by
              simp [propagatePriority, hg0, ht0, hlt0]
            rw [hres]
            rcases List.mem_cons.mp hd with rfl | hd'
            · rw [hg0] at hg
              injection hg with h
              rw [← h] at hlt
              exact absurd hlt hlt0
            · exact ih ts ds hskip d t hd' hg hterm hlt

end Sched

/-! ## Priority propagation: the step lemma -/

namespace Sched

/-- If the propagation DFS raised a task `x` (tracked, non-terminal,
originally below `p`) to `p`, then every dependency `y` of `x` that is
tracked, non-terminal and originally below `p` is also raised to `p`. -/
theorem propagate_step (p : TaskPriority) :
    ∀ fuel ts deps, FuelOK p fuel ts deps →
      ∀ x xt y yt, getTask ts x = some xt → isTerminal xt.status = false →
        prioRank xt.effectivePriority < prioRank p →
        effOf (propagatePriority p fuel ts deps) x = some p →
        y ∈ xt.dependencies → getTask ts y = some yt →
        isTerminal yt.status = false → prioRank yt.effectivePriority < prioRank p →
        effOf (propagatePriority p fuel ts deps) y = some p := by
  intro fuel
  induction fuel with
  | zero =>
    intro ts deps hful x xt y yt hgx hxterm hxlt hxp hy hgy hyterm hylt
    exfalso
    rw [show propagatePriority p 0 ts deps = ts from rfl, effOf, hgx] at hxp
    simp at hxp
    rw [hxp] at hxlt
    exact absurd hxlt (lt_irrefl _)
  | succ fuel ih =>
    intro ts deps hful x xt y yt hgx hxterm hxlt hxp hy hgy hyterm hylt
    cases deps with
    | nil =>
      exfalso
      rw [show propagatePriority p (fuel + 1) ts [] = ts by simp [propagatePriority],
        effOf, hgx] at hxp
      simp at hxp
      rw [hxp] at hxlt
      exact absurd hxlt (lt_irrefl _)
    | cons d0 ds =>
      have hskip : FuelOK p fuel ts ds := by
        unfold FuelOK at hful ⊢
        simp only [List.length_cons] at hful
        omega
      cases hg0 : getTask ts d0 with
      | none =>
        have hres : propagatePriority p (fuel + 1) ts (d0 :: ds)
            = propagatePriority p fuel ts ds := by
          simp [propagatePriority, hg0]
        rw [hres] at hxp ⊢
        exact ih ts ds hskip x xt y yt hgx hxterm hxlt hxp hy hgy hyterm hylt
      | some t0 =>
        by_cases ht0 : isTerminal t0.status
        · have hres : propagatePriority p (fuel + 1) ts (d0 :: ds)
              = propagatePriority p fuel ts ds := by
            simp [propagatePriority, hg0, ht0]
          rw [hres] at hxp ⊢
          exact ih ts ds hskip x xt y yt hgx hxterm hxlt hxp hy hgy hyterm hylt
        · by_cases hlt0 : prioRank t0.effectivePriority < prioRank p
          · have hterm0 : isTerminal t0.status = false := by simpa using ht0
            have hres : propagatePriority p (fuel + 1) ts (d0 :: ds)
                = propagatePriority p fuel
                    (propagatePriority p fuel (updEff ts d0 p) t0.dependencies) ds := by
              simp [propagatePriority, hg0, ht0, hlt0]
            rw [hres] at hxp ⊢
            have hphiupd := phi_updEff_le hg0 hterm0 hlt0
            have hfin : FuelOK p fuel (updEff ts d0 p) t0.dependencies := by
              unfold FuelOK at hful ⊢
              simp only [List.length_cons] at hful
              omega
            obtain ⟨F1, hF1, hSh1⟩ := propagate_mapF p fuel (updEff ts d0 p) t0.dependencies
            have hphiacc : phi p (propagatePriority p fuel (updEff ts d0 p) t0.dependencies)
                ≤ phi p (updEff ts d0 p) := by
              rw [hF1]
              exact phi_map_le hSh1 _
            have hfout : FuelOK p fuel
                (propagatePriority p fuel (updEff ts d0 p) t0.dependencies) ds := by
              unfold FuelOK at hful ⊢
              simp only [List.length_cons] at hful
              omega
            have hcomp := isShape_comp (isShape_raiseUpd d0 p) hSh1
            have hx1 : getTask (propagatePriority p fuel (updEff ts d0 p) t0.dependencies) x
                = some (F1 (raiseUpd d0 p xt)) := by
              rw [hF1, getTask_map F1 hSh1.idEq, updEff_getTask, hgx]
              rfl
            have hy1 : getTask (propagatePriority p fuel (updEff ts d0 p) t0.dependencies) y
                = some (F1 (raiseUpd d0 p yt)) := by
              rw [hF1, getTask_map F1 hSh1.idEq, updEff_getTask, hgy]
              rfl
            rcases hcomp.effEq xt with hxe | hxe
            · rcases hcomp.effEq yt with hye | hye
              · refine ih _ ds hfout x (F1 (raiseUpd d0 p xt)) y (F1 (raiseUpd d0 p yt))
                  hx1 ?_ ?_ hxp ?_ hy1 ?_ ?_
                · rw [hcomp.statusEq xt]
                  exact hxterm
                · rw [hxe]
                  exact hxlt
                · rw [hcomp.depsEq xt]
                  exact hy
                · rw [hcomp.statusEq yt]
                  exact hyterm
                · rw [hye]
                  exact hylt
              · exact propagate_keeps_p hy1 hye
            · by_cases hxd : x = d0
              · have hxt0 : xt = t0 := by
                  rw [hxd] at hgx
                  rw [hgx] at hg0
                  exact Option.some.inj hg0
                have hyu : getTask (updEff ts d0 p) y = some (raiseUpd d0 p yt) := by
                  rw [updEff_getTask, hgy]
                  rfl
                rcases (isShape_raiseUpd d0 p).effEq yt with hye | hye
                · have h1 : effOf (propagatePriority p fuel (updEff ts d0 p) t0.dependencies) y
                      = some p := by
                    refine propagate_head p fuel (updEff ts d0 p) t0.dependencies hfin y
                      (raiseUpd d0 p yt) ?_ hyu ?_ ?_
                    · rw [← hxt0]
                      exact hy
                    · rw [(isShape_raiseUpd d0 p).statusEq yt]
                      exact hyterm
                    · rw [hye]
                      exact hylt
                  obtain ⟨u1, hu1, hu1e⟩ := effOf_eq_some h1
                  exact propagate_keeps_p hu1 hu1e
                · have h1 : effOf (propagatePriority p fuel (updEff ts d0 p) t0.dependencies) y
                      = some p := propagate_keeps_p hyu hye
                  obtain ⟨u1, hu1, hu1e⟩ := effOf_eq_some h1
                  exact propagate_keeps_p hu1 hu1e
              · have hxid : xt.id = x := getTask_eq_some_id hgx
                have hxraise : raiseUpd d0 p xt = xt := raiseUpd_ne (by rw [hxid]; exact hxd) p
                have hxu : getTask (updEff ts d0 p) x = some xt := by
                  rw [updEff_getTask, hgx]
                  simp [hxraise]
                rw [hxraise] at hxe hx1
                have hxpacc : effOf (propagatePriority p fuel (updEff ts d0 p) t0.dependencies) x
                    = some p := by
                  rw [effOf, hx1]
                  simp [hxe]
                have hyu : getTask (updEff ts d0 p) y = some (raiseUpd d0 p yt) := by
                  rw [updEff_getTask, hgy]
                  rfl
                rcases (isShape_raiseUpd d0 p).effEq yt with hye | hye
                · have h1 : effOf (propagatePriority p fuel (updEff ts d0 p) t0.dependencies) y
                      = some p := by
                    refine ih (updEff ts d0 p) t0.dependencies hfin x xt y (raiseUpd d0 p yt)
                      hxu hxterm hxlt hxpacc hy hyu ?_ ?_
                    · rw [(isShape_raiseUpd d0 p).statusEq yt]
                      exact hyterm
                    · rw [hye]
                      exact hylt
                  obtain ⟨u1, hu1, hu1e⟩ := effOf_eq_some h1
                  exact propagate_keeps_p hu1 hu1e
                · have h1 : effOf (propagatePriority p fuel (updEff ts d0 p) t0.dependencies) y
                      = some p := propagate_keeps_p hyu hye
                  obtain ⟨u1, hu1, hu1e⟩ := effOf_eq_some h1
                  exact propagate_keeps_p hu1 hu1e
          · have hres : propagatePriority p (fuel + 1) ts (d0 :: ds)
                = propagatePriority p fuel ts ds := by
              simp [propagatePriority, hg0, ht0, hlt0]
            rw [hres] at hxp ⊢
            exact ih ts ds hskip x xt y yt hgx hxterm hxlt hxp hy hgy hyterm hylt

end Sched

/-! ## Priority propagation: chains and C1 -/

namespace Sched

theorem DepChain_append {ts : List Task} {p : TaskPriority} {deps cs : List String}
    (l : List Task) (h : DepChain ts p deps cs) : DepChain (ts ++ l) p deps cs := by
  induction h with
  | nil deps => exact .nil deps
  | cons deps c cs t hmem hg hterm hlt _ ih =>
    exact .cons deps c cs t hmem (getTask_append_some l hg) hterm hlt ih

theorem propagate_chain_from (p : TaskPriority) (fuel : Nat) (ts : List Task)
    (deps : List String) (hful : FuelOK p fuel ts deps) :
    ∀ cs x xt, getTask ts x = some xt → isTerminal xt.status = false →
      prioRank xt.effectivePriority < prioRank p →
      effOf (propagatePriority p fuel ts deps) x = some p →
      DepChain ts p xt.dependencies cs →
      ∀ c ∈ cs, effOf (propagatePriority p fuel ts deps) c = some p := by
  intro cs
  induction cs with
  | nil =>
    intro x xt _ _ _ _ _ c hc
    cases hc
  | cons c0 cs' ih =>
    intro x xt hgx hxterm hxlt hxp hch c hc
    cases hch with
    | cons _ _ _ t0 hmem hgt0 hterm0 hlt0 hch' =>
      have hc0 : effOf (propagatePriority p fuel ts deps) c0 = some p :=
        propagate_step p fuel ts deps hful x xt c0 t0 hgx hxterm hxlt hxp hmem hgt0 hterm0 hlt0
      rcases List.mem_cons.mp hc with rfl | hc'
      · exact hc0
      · exact ih c0 t0 hgt0 hterm0 hlt0 hc0 hch' c hc'

/-- Every id on a dependency chain of tracked, non-terminal, below-`p`
tasks entered through the initial dependency list is raised to `p` by the
propagation DFS (given sufficient fuel). -/
theorem propagate_chain (p : TaskPriority) (fuel : Nat) (ts : List Task)
    (deps : List String) (cs : List String) (hful : FuelOK p fuel ts deps)
    (hch : DepChain ts p deps cs) :
    ∀ c ∈ cs, effOf (propagatePriority p fuel ts deps) c = some p := by
  cases hch with
  | nil =>
    intro c hc
    cases hc
  | cons _ c0 cs' t0 hmem hgt0 hterm0 hlt0 hch' =>
    have hc0 : effOf (propagatePriority p fuel ts deps) c0 = some p :=
      propagate_head p fuel ts deps hful c0 t0 hmem hgt0 hterm0 hlt0
    intro c hc
    rcases List.mem_cons.mp hc with rfl | hc'
    · exact hc0
    · exact propagate_chain_from p fuel ts deps hful cs' c0 t0 hgt0 hterm0 hlt0 hc0 hch' c hc'

theorem addTask_ok (s : Scheduler) (d : TaskDescriptor)
    (h1 : queueFullB s = false) (h2 : (getTask s.tasks d.id).isSome = false)
    (h3 : s.executors.contains d.taskType = true)
    (h4 : d.dependencies.all (fun c => (getTask s.tasks c).isSome) = true) :
    addTask s d = ({ s with
        tasks := propagatePriority d.priority
          (phiBound (s.tasks ++ [newTaskOf s d]) d.dependencies)
          (s.tasks ++ [newTaskOf s d]) d.dependencies,
        seqCounter := s.seqCounter + 1 }, .ok d.id) := by
  unfold addTask
  rw [h1, h2, h3, h4]
  simp

/-- C1: Priority inheritance is transitive. When a task with effective
priority `p` is successfully inserted, every task reachable from it
through the dependency relation along tracked, non-terminal tasks of
effective priority strictly below `p` (terminal ancestors are skipped by
the `DepChain` side conditions) has its effective priority raised to `p`.
Consequently, in the serial S4 scenario — A(LOW), B(LOW, deps=[A]),
C(HIGH, deps=[B]), D(NORMAL) — A and B are raised to HIGH and the
execution order is `A, B, C, D`. -/
theorem priority_inheritance_transitive :
    (∀ (s : Scheduler) (d : TaskDescriptor) (s' : Scheduler) (i : String) (cs : List String),
       addTask s d = (s', Except.ok i) →
       DepChain s.tasks d.priority d.dependencies cs →
       ∀ c ∈ cs, effOf s'.tasks c = some d.priority) ∧
    runSerial s4State.tasks.length s4State.tasks = ["A", "B", "C", "D"] ∧
    effOf s4State.tasks "A" = some .HIGH ∧ effOf s4State.tasks "B" = some .HIGH := by
  refine ⟨?_, by decide, by decide, by decide⟩
  intro s d s' i cs hadd hch
  cases h1 : queueFullB s with
  | true =>
    exfalso
    have he : addTask s d = (s, .error .queueFull) := by
      unfold addTask
      rw [h1]
      simp
    rw [he] at hadd
    exact absurd (congrArg Prod.snd hadd) (by simp)
  | false =>
    cases h2 : (getTask s.tasks d.id).isSome with
    | true =>
      exfalso
      have he : addTask s d = (s, .error .duplicateId) := by
        unfold addTask
        rw [h1, h2]
        simp
      rw [he] at hadd
      exact absurd (congrArg Prod.snd hadd) (by simp)
    | false =>
      cases h3 : s.executors.contains d.taskType with
      | false =>
        exfalso
        have he : addTask s d = (s, .error .noExecutor) := by
          unfold addTask
          rw [h1, h2, h3]
          simp
        rw [he] at hadd
        exact absurd (congrArg Prod.snd hadd) (by simp)
      | true =>
        cases h4 : d.dependencies.all (fun c => (getTask s.tasks c).isSome) with
        | false =>
          exfalso
          have he : addTask s d = (s, .error .unknownDependency) := by
            unfold addTask
            rw [h1, h2, h3, h4]
            simp
          rw [he] at hadd
          exact absurd (congrArg Prod.snd hadd) (by simp)
        | true =>
          rw [addTask_ok s d h1 h2 h3 h4] at hadd
          injection hadd with hA hB
          intro c hc
          rw [← hA]
          have hch1 : DepChain (s.tasks ++ [newTaskOf s d]) d.priority d.dependencies cs :=
            DepChain_append _ hch
          have hful : FuelOK d.priority
              (phiBound (s.tasks ++ [newTaskOf s d]) d.dependencies)
              (s.tasks ++ [newTaskOf s d]) d.dependencies := by
            unfold FuelOK phiBound
            have := phi_le_depWeight d.priority (s.tasks ++ [newTaskOf s d])
            omega
          exact propagate_chain d.priority _ _ _ cs hful hch1 c hc

end Sched

namespace Sched

/-- C1 witness: applying the transitivity theorem to the S4 scenario at the
insertion of C(HIGH, deps=[B]) over A(LOW) <- B(LOW): the chain B, A is
raised to HIGH. -/
theorem priority_inheritance_transitive_witness :
    effOf (addTask s4Pre (mkDesc "C" "CUSTOM" .HIGH ["B"])).1.tasks "A"
      = some TaskPriority.HIGH ∧
    effOf (addTask s4Pre (mkDesc "C" "CUSTOM" .HIGH ["B"])).1.tasks "B"
      = some TaskPriority.HIGH := by
  have hch : DepChain s4Pre.tasks TaskPriority.HIGH ["B"] ["B", "A"] := by
    refine DepChain.cons _ "B" ["A"]
      { id := "B", taskType := "CUSTOM", priority := .LOW, effectivePriority := .LOW,
        dependencies := ["A"], status := .PENDING, enqueueSequence := 1, retryCount := 0,
        retryStrategy := .FIXED, timeout := none, interruptible := false,
        aborted := false, error := none, finishedAt := none }
      (by decide) (by decide) (by decide) (by decide)
      (DepChain.cons _ "A" []
        { id := "A", taskType := "CUSTOM", priority := .LOW, effectivePriority := .LOW,
          dependencies := [], status := .PENDING, enqueueSequence := 0, retryCount := 0,
          retryStrategy := .FIXED, timeout := none, interruptible := false,
          aborted := false, error := none, finishedAt := none }
        (by decide) (by decide) (by decide) (by decide) (DepChain.nil _))
  have hall := priority_inheritance_transitive.1 s4Pre (mkDesc "C" "CUSTOM" .HIGH ["B"])
    (addTask s4Pre (mkDesc "C" "CUSTOM" .HIGH ["B"])).1 "C" ["B", "A"] rfl hch
  exact ⟨hall "A" (by decide), hall "B" (by decide)⟩

end Sched

/-! ## Dispatch order: C2 and C3 -/

namespace Sched

theorem pickBest_mem : ∀ (l : List Task) (b : Task), pickBest b l ∈ b :: l := by
  intro l
  induction l with
  | nil =>
    intro b
    simp [pickBest]
  | cons t ts ih =>
    intro b
    unfold pickBest
    split
    · exact List.mem_cons_of_mem b (ih t)
    · rcases List.mem_cons.mp (ih b) with h | h
      · rw [h]
        exact List.mem_cons_self _ _
      · exact List.mem_cons_of_mem b (List.mem_cons_of_mem t h)

theorem pickBest_max : ∀ (l : List Task) (b : Task),
    List.Pairwise (fun a c => a.enqueueSequence < c.enqueueSequence) (b :: l) →
    ∀ u ∈ b :: l,
      prioRank u.effectivePriority ≤ prioRank (pickBest b l).effectivePriority ∧
      (prioRank u.effectivePriority = prioRank (pickBest b l).effectivePriority →
        (pickBest b l).enqueueSequence ≤ u.enqueueSequence) := by
  intro l
  induction l with
  | nil =>
    intro b _ u hu
    rcases List.mem_cons.mp hu with rfl | h
    · exact ⟨le_refl _, fun _ => le_refl _⟩
    · cases h
  | cons t ts ih =>
    intro b hpw u hu
    have hpw_t : List.Pairwise (fun a c => a.enqueueSequence < c.enqueueSequence) (t :: ts) :=
      (List.pairwise_cons.mp hpw).2
    have hb_lt : ∀ v ∈ t :: ts, b.enqueueSequence < v.enqueueSequence :=
      (List.pairwise_cons.mp hpw).1
    have hpw_b : List.Pairwise (fun a c => a.enqueueSequence < c.enqueueSequence) (b :: ts) := by
      rw [List.pairwise_cons]
      exact ⟨fun v hv => hb_lt v (List.mem_cons_of_mem t hv),
        (List.pairwise_cons.mp hpw_t).2⟩
    unfold pickBest
    split
    case isTrue hbt =>
      rcases List.mem_cons.mp hu with rfl | hu'
      · have ht := ih t hpw_t t (List.mem_cons_self _ _)
        refine ⟨le_of_lt (lt_of_lt_of_le hbt ht.1), fun heq => ?_⟩
        have hlt : prioRank u.effectivePriority < prioRank (pickBest t ts).effectivePriority :=
          lt_of_lt_of_le hbt ht.1
        rw [heq] at hlt
        exact absurd hlt (lt_irrefl _)
      · exact ih t hpw_t u hu'
    case isFalse hbt =>
      rcases List.mem_cons.mp hu with rfl | hu'
      · exact ih u hpw_b u (List.mem_cons_self _ _)
      · rcases List.mem_cons.mp hu' with rfl | hu''
        · have hbb := ih b hpw_b b (List.mem_cons_self _ _)
          have hub : prioRank u.effectivePriority ≤ prioRank b.effectivePriority :=
            Nat.le_of_not_lt hbt
          refine ⟨le_trans hub hbb.1, fun heq => ?_⟩
          have hbeq : prioRank b.effectivePriority
              = prioRank (pickBest b ts).effectivePriority := by
            rw [heq] at hub
            exact le_antisymm hbb.1 hub
          have hseq := hbb.2 hbeq
          have hbu : b.enqueueSequence < u.enqueueSequence :=
            hb_lt u (List.mem_cons_self _ _)
          omega
        · exact ih b hpw_b u (List.mem_cons_of_mem b hu'')

theorem pickNext_spec (ts : List Task)
    (hpw : List.Pairwise (fun a c => a.enqueueSequence < c.enqueueSequence) ts)
    (t : Task) (hp : pickNext ts = some t) :
    t ∈ readyTasks ts ∧
    ∀ u ∈ readyTasks ts,
      prioRank u.effectivePriority ≤ prioRank t.effectivePriority ∧
      (prioRank u.effectivePriority = prioRank t.effectivePriority →
        t.enqueueSequence ≤ u.enqueueSequence) := by
  unfold pickNext at hp
  cases hr : readyTasks ts with
  | nil =>
    rw [hr] at hp
    cases hp
  | cons b rest =>
    rw [hr] at hp
    injection hp with hp'
    have hpwr : List.Pairwise (fun a c => a.enqueueSequence < c.enqueueSequence) (b :: rest) := by
      rw [← hr]
      exact hpw.sublist (List.filter_sublist ts)
    subst hp'
    exact ⟨pickBest_mem rest b, fun u hu => pickBest_max rest b hpwr u hu⟩

theorem pickNext_ready (ts : List Task) (t : Task) (hp : pickNext ts = some t) :
    t.status = .PENDING ∧
    ∀ dep ∈ t.dependencies, ∃ u, getTask ts dep = some u ∧ u.status = .COMPLETED := by
  have hmem : t ∈ readyTasks ts := by
    unfold pickNext at hp
    cases hr : readyTasks ts with
    | nil =>
      rw [hr] at hp
      cases hp
    | cons b rest =>
      rw [hr] at hp
      injection hp with hp'
      rw [← hp']
      exact pickBest_mem rest b
  have hready : isReady ts t = true := List.of_mem_filter hmem
  unfold isReady at hready
  simp only [Bool.and_eq_true, beq_iff_eq, List.all_eq_true] at hready
  obtain ⟨hstat, hdeps⟩ := hready
  refine ⟨hstat, fun dep hdep => ?_⟩
  have hthis := hdeps dep hdep
  cases hu : getTask ts dep with
  | none =>
    rw [hu] at hthis
    simp at hthis
  | some u =>
    rw [hu] at hthis
    exact ⟨u, rfl, by simpa using hthis⟩

/-- C2: Among tasks ready at the same instant the dispatcher begins the one
with the strictly highest effective priority, ties broken by the earliest
enqueue sequence (FIFO); with `maxConcurrentTasks = 1`, three independent
tasks inserted LOW, HIGH, NORMAL execute in the order HIGH, NORMAL, LOW. -/
theorem dispatch_priority_order :
    (∀ ts : List Task,
       List.Pairwise (fun a c => a.enqueueSequence < c.enqueueSequence) ts →
       ∀ t : Task, pickNext ts = some t →
         t ∈ readyTasks ts ∧
         ∀ u ∈ readyTasks ts,
           prioRank u.effectivePriority ≤ prioRank t.effectivePriority ∧
           (prioRank u.effectivePriority = prioRank t.effectivePriority →
             t.enqueueSequence ≤ u.enqueueSequence)) ∧
    runSerial s2State.tasks.length s2State.tasks = ["HIGH", "NORMAL", "LOW"] :=
  ⟨fun ts hpw t hp => pickNext_spec ts hpw t hp, by decide⟩

/-- C2 witness: in the S2 state the dispatcher picks the HIGH task, which
dominates every ready task. -/
theorem dispatch_priority_order_witness :
    ({ id := "HIGH", taskType := "CUSTOM", priority := .HIGH, effectivePriority := .HIGH,
       dependencies := [], status := .PENDING, enqueueSequence := 1, retryCount := 0,
       retryStrategy := .FIXED, timeout := none, interruptible := false,
       aborted := false, error := none, finishedAt := none } : Task) ∈ readyTasks s2State.tasks ∧
    ∀ u ∈ readyTasks s2State.tasks,
      prioRank u.effectivePriority ≤ prioRank TaskPriority.HIGH ∧
      (prioRank u.effectivePriority = prioRank TaskPriority.HIGH →
        1 ≤ u.enqueueSequence) :=
  dispatch_priority_order.1 s2State.tasks (by decide) _ (by decide)

/-- C3: A task is begun by the dispatcher only when it is pending and every
one of its dependencies has status `COMPLETED` (so its executor is never
invoked before that); the linear chain task1 <- task2 <- task3 executes in
exactly that order. -/
theorem dependencies_before_running :
    (∀ (ts : List Task) (t : Task), pickNext ts = some t →
       t.status = .PENDING ∧
       ∀ dep ∈ t.dependencies, ∃ u, getTask ts dep = some u ∧ u.status = .COMPLETED) ∧
    runSerial chain3State.tasks.length chain3State.tasks = ["1", "2", "3"] :=
  ⟨pickNext_ready, by decide⟩

/-- C3 witness: after task 1 completes, the dispatcher picks task 2, whose
single dependency "1" is COMPLETED. -/
theorem dependencies_before_running_witness :
    ({ id := "2", taskType := "CUSTOM", priority := .NORMAL, effectivePriority := .NORMAL,
       dependencies := ["1"], status := .PENDING, enqueueSequence := 1, retryCount := 0,
       retryStrategy := .FIXED, timeout := none, interruptible := false,
       aborted := false, error := none, finishedAt := none } : Task).status = TaskStatus.PENDING ∧
    ∀ dep ∈ (["1"] : List String),
      ∃ u, getTask (markCompleted chain3State.tasks "1") dep = some u ∧
        u.status = TaskStatus.COMPLETED :=
  dependencies_before_running.1 (markCompleted chain3State.tasks "1") _ (by decide)

end Sched

/-! ## Registry round-trip: C8 -/

namespace Sched

theorem getTask_eq_none_of_not_mem {ts : List Task} {i : String}
    (h : i ∉ ts.map (fun t => t.id)) : getTask ts i = none := by
  induction ts with
  | nil => rfl
  | cons u ts ih =>
    simp only [List.map_cons, List.mem_cons] at h
    push_neg at h
    have hne : (u.id == i) = false := by
      simp [Ne.symm h.1]
    simp only [getTask, hne, Bool.false_eq_true, if_false]
    exact ih h.2

theorem getTask_filter_keep {f : Task → Bool} {i : String} {t : Task} :
    ∀ ts : List Task, getTask ts i = some t → f t = true →
      getTask (ts.filter f) i = some t := by
  intro ts
  induction ts with
  | nil =>
    intro hg
    simp [getTask] at hg
  | cons u ts ih =>
    intro hg hf
    simp only [getTask] at hg
    cases hu : (u.id == i) with
    | true =>
      rw [hu] at hg
      simp only [if_true] at hg
      injection hg with hg'
      subst hg'
      rw [List.filter_cons, if_pos hf]
      simp [getTask, hu]
    | false =>
      rw [hu] at hg
      simp only [Bool.false_eq_true, if_false] at hg
      rw [List.filter_cons]
      split
      · simp only [getTask, hu, Bool.false_eq_true, if_false]
        exact ih hg hf
      · exact ih hg hf

theorem getTask_filter_remove {f : Task → Bool} {i : String} {t : Task} :
    ∀ ts : List Task, (ts.map (fun u => u.id)).Nodup → getTask ts i = some t →
      f t = false → getTask (ts.filter f) i = none := by
  intro ts
  induction ts with
  | nil =>
    intro _ hg
    simp [getTask] at hg
  | cons u ts ih =>
    intro hnd hg hf
    simp only [List.map_cons, List.nodup_cons] at hnd
    simp only [getTask] at hg
    cases hu : (u.id == i) with
    | true =>
      rw [hu] at hg
      simp only [if_true] at hg
      injection hg with hg'
      subst hg'
      rw [List.filter_cons, if_neg (by simp [hf])]
      have hui : u.id = i := eq_of_beq hu
      have hnotm : i ∉ (ts.filter f).map (fun v => v.id) := by
        intro hmem
        exact hnd.1 (by
          rw [hui]
          exact (List.Sublist.map (fun v => v.id) (List.filter_sublist ts)).subset hmem)
      exact getTask_eq_none_of_not_mem hnotm
    | false =>
      rw [hu] at hg
      simp only [Bool.false_eq_true, if_false] at hg
      rw [List.filter_cons]
      split
      · simp only [getTask, hu, Bool.false_eq_true, if_false]
        exact ih hnd.2 hg hf
      · exact ih hnd.2 hg hf

theorem addTask_ok_inv (s : Scheduler) (d : TaskDescriptor) (s' : Scheduler) (i : String)
    (hadd : addTask s d = (s', Except.ok i)) :
    queueFullB s = false ∧ (getTask s.tasks d.id).isSome = false ∧
    s.executors.contains d.taskType = true ∧
    d.dependencies.all (fun c => (getTask s.tasks c).isSome) = true ∧
    i = d.id ∧
    s'.tasks = propagatePriority d.priority
      (phiBound (s.tasks ++ [newTaskOf s d]) d.dependencies)
      (s.tasks ++ [newTaskOf s d]) d.dependencies := by
  cases h1 : queueFullB s with
  | true =>
    exfalso
    have he : addTask s d = (s, .error .queueFull) := by
      unfold addTask
      rw [h1]
      simp
    rw [he] at hadd
    exact absurd (congrArg Prod.snd hadd) (by simp)
  | false =>
    cases h2 : (getTask s.tasks d.id).isSome with
    | true =>
      exfalso
      have he : addTask s d = (s, .error .duplicateId) := by
        unfold addTask
        rw [h1, h2]
        simp
      rw [he] at hadd
      exact absurd (congrArg Prod.snd hadd) (by simp)
    | false =>
      cases h3 : s.executors.contains d.taskType with
      | false =>
        exfalso
        have he : addTask s d = (s, .error .noExecutor) := by
          unfold addTask
          rw [h1, h2, h3]
          simp
        rw [he] at hadd
        exact absurd (congrArg Prod.snd hadd) (by simp)
      | true =>
        cases h4 : d.dependencies.all (fun c => (getTask s.tasks c).isSome) with
        | false =>
          exfalso
          have he : addTask s d = (s, .error .unknownDependency) := by
            unfold addTask
            rw [h1, h2, h3, h4]
            simp
          rw [he] at hadd
          exact absurd (congrArg Prod.snd hadd) (by simp)
        | true =>
          rw [addTask_ok s d h1 h2 h3 h4] at hadd
          injection hadd with hA hB
          injection hB with hB'
          exact ⟨rfl, rfl, rfl, rfl, hB'.symm, by rw [← hA]⟩

/-- C8: Round-trip of ids. A successfully added id resolves via
`getTaskStatus` (to `PENDING` right after insertion); a retention sweep
keeps — with unchanged status — every task that is not both terminal and
expired (`now − finishedAt > retentionPeriod`) and removes every expired
terminal task, after which the id resolves to the unknown sentinel
(`none`); `clear()` removes every task; and untracked ids always resolve
to the sentinel `none`. -/
theorem getTaskStatus_roundtrip :
    (∀ (s : Scheduler) (d : TaskDescriptor) (s' : Scheduler) (i : String),
       addTask s d = (s', Except.ok i) → getTaskStatus s' i = some .PENDING) ∧
    (∀ (s : Scheduler) (i : String) (t : Task) (now : Nat),
       getTask s.tasks i = some t → keepTask s.retentionPeriod now t = true →
       getTaskStatus (sweep now s) i = some t.status) ∧
    (∀ (s : Scheduler) (i : String) (t : Task) (now : Nat),
       (s.tasks.map (fun u => u.id)).Nodup → getTask s.tasks i = some t →
       keepTask s.retentionPeriod now t = false →
       getTaskStatus (sweep now s) i = none) ∧
    (∀ (s : Scheduler) (i : String), getTaskStatus (clear s) i = none) ∧
    (∀ (s : Scheduler) (i : String), getTask s.tasks i = none → getTaskStatus s i = none) := by
  refine ⟨?_, ?_, ?_, fun s i => rfl, ?_⟩
  · intro s d s' i hadd
    obtain ⟨h1, h2, h3, h4, hi, hts⟩ := addTask_ok_inv s d s' i hadd
    subst hi
    have hnone : getTask s.tasks d.id = none := by
      cases hx : getTask s.tasks d.id with
      | none => rfl
      | some u =>
        rw [hx] at h2
        simp at h2
    have happ : getTask (s.tasks ++ [newTaskOf s d]) d.id = some (newTaskOf s d) := by
      rw [getTask_append_none _ hnone]
      simp [getTask, newTaskOf]
    obtain ⟨F, hF, hSh⟩ := propagate_mapF d.priority
      (phiBound (s.tasks ++ [newTaskOf s d]) d.dependencies)
      (s.tasks ++ [newTaskOf s d]) d.dependencies
    unfold getTaskStatus
    rw [hts, hF, getTask_map F hSh.idEq, happ]
    show some ((F (newTaskOf s d)).status) = some TaskStatus.PENDING
    rw [hSh.statusEq]
    rfl
  · intro s i t now hg hk
    unfold getTaskStatus sweep
    simp only
    rw [getTask_filter_keep s.tasks hg hk]
    rfl
  · intro s i t now hnd hg hk
    unfold getTaskStatus sweep
    simp only
    rw [getTask_filter_remove s.tasks hnd hg hk]
    rfl
  · intro s i h
    unfold getTaskStatus
    rw [h]
    rfl

/-- C8 witness: a fresh id resolves to `PENDING` after `addTask`; a
completed task within retention survives a sweep with unchanged status; an
expired completed task is removed by the sweep; `clear` and absent ids
resolve to the sentinel. -/
theorem getTaskStatus_roundtrip_witness :
    getTaskStatus (addTask s2State (mkDesc "X" "CUSTOM" .NORMAL [])).1 "X"
      = some TaskStatus.PENDING ∧
    getTaskStatus (sweep 500 retentionState) "d" = some TaskStatus.COMPLETED ∧
    getTaskStatus (sweep 2000 retentionState) "d" = none ∧
    getTaskStatus (clear s2State) "LOW" = none ∧
    getTaskStatus s2State "missing" = none :=
  ⟨getTaskStatus_roundtrip.1 s2State (mkDesc "X" "CUSTOM" .NORMAL [])
      (addTask s2State (mkDesc "X" "CUSTOM" .NORMAL [])).1 "X" rfl,
   getTaskStatus_roundtrip.2.1 retentionState "d" (doneTask "d" 0) 500
      (by decide) (by decide),
   getTaskStatus_roundtrip.2.2.1 retentionState "d" (doneTask "d" 0) 2000
      (by decide) (by decide) (by decide),
   getTaskStatus_roundtrip.2.2.2.1 (clear s2State) "LOW",
   getTaskStatus_roundtrip.2.2.2.2 s2State "missing" (by decide)⟩

end Sched
